import Mathlib

/-!
Verification of the npx-package scaffolding CLI (src/index.js) against its
design specification.  The generator collects four answers, creates a fixed
directory tree, renders template files, resolves dependency versions and
writes a package manifest.  We embed the data model, the template renderer
and the orchestrator as executable Lean definitions and settle the frozen
claims about them.
-/

/-- The Answer Record produced by the prompt collector (src/index.js lines 8-33, 65). -/
structure Answer where
  name : String
  useCors : Bool
  useErrorHandler : Bool
  useEnvFile : Bool
deriving DecidableEq

/-- Result of one version lookup by the version resolver. -/
structure DependencyDescriptor where
  name : String
  version : String
deriving DecidableEq

/-- Template text of middlewares/error.js (src/index.js lines 35-53). -/
def jsErrorMiddleware : String :=
  "import \x7benvMode\x7d from \"../app.js\"\n\nexport const errorMiddleware = (err, req, res, next)=> \x7b\n\n  err.message = err.message || \"Internal Server Error\";\n  err.statusCode = err.statusCode || 500;\n  \n  const response = \x7b\n    success: false,\n    message: err.message,\n  \x7d;\n\n  if (envMode === \"DEVELOPMENT\") \x7b\n    response.error = err;\n  \x7d\n\n  return res.status(err.statusCode).json(response);\n\x7d;\n"

/-- Template text of utils/errorHandler.js (src/index.js lines 55-60). -/
def jsErrorHandler : String :=
  " export default class ErrorHandler extends Error \x7b\n    constructor(statusCode, message=\"something went wrong\") \x7b\n      super(message);\n      this.statusCode = statusCode;\n    \x7d\n\x7d"

/-- The framework import line (src/index.js line 86). -/
def expressImport : String := "import express from \"express\";"

/-- The CORS import line (src/index.js line 93). -/
def corsImport : String := "import cors from \"cors\""

/-- The error-middleware import line (src/index.js line 98). -/
def errMidImport : String := "import \x7b errorMiddleware \x7d from \"./middlewares/error.js\""

/-- The env-loader import line (src/index.js line 102). -/
def dotenvImport : String := "import dotenv from \"dotenv\";"

/-- JSON body-parsing registration (src/index.js line 88). -/
def jsonMw : String := "app.use(express.json());"

/-- URL-encoded body-parsing registration (src/index.js line 89). -/
def urlencodedMw : String := "app.use(express.urlencoded(\x7bextended: true\x7d));"

/-- CORS registration (src/index.js line 94). -/
def corsMw : String := "app.use(cors(\x7borigin: \x27*\x27, credentials: true\x7d))"

/-- The env-loading call rendered into the entry point (src/index.js line 108). -/
def envConfigLine : String := "dotenv.config(\x7bpath: \x27./env\x27\x7d);"

/-- The error-middleware registration line (src/index.js line 129). -/
def errMidUse : String := "app.use(errorMiddleware);"

/-- Contents of the generated .env file (src/index.js line 103). -/
def envFileContent : String := "PORT=5000"

/-- Import lines of the entry point, assembled in source order
(src/index.js lines 86-105): framework, then conditional CORS,
error-middleware and env-loader imports. -/
def importLines (a : Answer) : List String :=
  let l0 := [expressImport]
  let l1 := if a.useCors then l0 ++ [corsImport] else l0
  let l2 := if a.useErrorHandler then l1 ++ [errMidImport] else l1
  if a.useEnvFile then l2 ++ [dotenvImport] else l2

/-- Middleware registration lines (src/index.js lines 87-95): JSON and
URL-encoded body parsing, then the conditional CORS registration. -/
def middlewareLines (a : Answer) : List String :=
  let base := [jsonMw, urlencodedMw]
  if a.useCors then base ++ [corsMw] else base

/-- The rendered entry-point file, transcribed from the template literal at
src/index.js lines 107-134, whitespace included. -/
def baseFileContent (a : Answer) : String :=
  String.intercalate "\n" (importLines a)
  ++ "\n        " ++ (if a.useEnvFile then envConfigLine else "")
  ++ "\n        export const envMode = process.env.NODE_ENV?.trim() || \x27DEVELOPMENT\x27;"
  ++ "\n        const port = process.env.PORT || 3000;"
  ++ "\n"
  ++ "\n        const app = express();"
  ++ "\n"
  ++ "\n        " ++ String.intercalate "\n" (middlewareLines a)
  ++ "\n"
  ++ "\n        app.get(\x27/\x27, (req,res) => \x7b"
  ++ "\n            res.send(\"Hello World!\");"
  ++ "\n        \x7d);"
  ++ "\n"
  ++ "\n        // your routes here"
  ++ "\n"
  ++ "\n        app.get(\"*\", (req, res) => \x7b"
  ++ "\n            res.status(404).json(\x7b"
  ++ "\n                success: false,"
  ++ "\n                message: \x27page not found\x27"
  ++ "\n            \x7d)"
  ++ "\n        \x7d);"
  ++ "\n"
  ++ "\n        " ++ (if a.useErrorHandler then errMidUse else "")
  ++ "\n"
  ++ "\n        app.listen(port, ()=> \x7b"
  ++ "\n            console.log(\x27Server is working on port:\x27+port+\x27 in \x27+envMode+\x27 Mode. \x27)"
  ++ "\n        \x7d);"
  ++ "\n        "

/-- The npm scripts object, as serialized at src/index.js lines 151-154. -/
def npmScriptjs : String :=
  "\x7b\"start\":\"set NODE_ENV=PRODUCTION & node app.js\",\"dev\":\"npx nodemon app.js\"\x7d"

/-- One dependency entry fragment, a quoted name and version pair
(src/index.js lines 148-149). -/
def depLine (d : DependencyDescriptor) : String :=
  "\"" ++ d.name ++ "\": \"" ++ d.version ++ "\""

/-- The manifest text, transcribed from the template literal at
src/index.js lines 156-172, whitespace included.  Note the comma after the
devDependencies closing brace, just before the final closing brace. -/
def packageJsonContent (projectName : String) (deps devDeps : List String) : String :=
  "\x7b\n        \"name\": \"" ++ projectName
  ++ "\",\n        \"version\": \"1.0.0\",\n        \"description\": \"\",\n        \"main\": \"app.js\",\n        \"scripts\": "
  ++ npmScriptjs
  ++ ",\n        \"keywords\": [],\n        \"author\": \"\",\n        \"type\": \"module\",\n        \"license\": \"ISC\",\n        \"dependencies\": \x7b\n            "
  ++ String.intercalate "," deps
  ++ "\n        \x7d,\n        \"devDependencies\": \x7b\n            "
  ++ String.intercalate "," devDeps
  ++ "\n        \x7d,\n    \x7d"

/-- Manifest rendering as a function of the Answer Record and the resolved
dependency descriptors of the two batches. -/
def renderManifest (a : Answer) (deps devDeps : List DependencyDescriptor) : String :=
  packageJsonContent a.name (deps.map depLine) (devDeps.map depLine)

/-- A JavaScript error value as seen by the rendered error middleware: each
field is either absent (none) or present; an empty message and a zero
status code are falsy in JavaScript and are also replaced by the defaults. -/
structure JsError where
  message : Option String
  statusCode : Option Nat
deriving DecidableEq

/-- The JSON body produced by the rendered error middleware. -/
structure ErrResponse where
  success : Bool
  message : String
  error : Option JsError
deriving DecidableEq

/-- Semantics of the rendered error middleware (the template at
src/index.js lines 35-53): default the message and status code, build the
response, attach the mutated error value exactly in DEVELOPMENT mode, and
answer with the status code and the JSON body. -/
def errorMiddleware (envMode : String) (e : JsError) : Nat × ErrResponse :=
  let msg := match e.message with
    | none => "Internal Server Error"
    | some m => if m = "" then "Internal Server Error" else m
  let code := match e.statusCode with
    | none => 500
    | some c => if c = 0 then 500 else c
  let mutated : JsError := { message := some msg, statusCode := some code }
  (code,
    { success := false
      message := msg
      error := if envMode = "DEVELOPMENT" then some mutated else none })

/-- Production mode of the generated project, as set by its start script. -/
def isProductionMode (m : String) : Bool := m = "PRODUCTION"

/-- The filesystem model: existing directories and files with contents. -/
structure FS where
  dirs : List String
  files : List (String × String)
deriving DecidableEq

/-- existsSync on the project root (src/index.js line 71). -/
def FS.existsPath (fs : FS) (p : String) : Bool :=
  fs.dirs.contains p || (fs.files.map Prod.fst).contains p

/-- writeFileSync: overwrite any existing file at the path. -/
def FS.writeFile (fs : FS) (p c : String) : FS :=
  { fs with files := (p, c) :: fs.files.filter (fun e => e.1 != p) }

/-- Read back a file of the modelled filesystem. -/
def FS.readFile (fs : FS) (p : String) : Option String :=
  (fs.files.find? (fun e => e.1 == p)).map Prod.snd

/-- mkdirSync. -/
def FS.mkdir (fs : FS) (p : String) : FS :=
  { fs with dirs := fs.dirs ++ [p] }

/-- The error that aborts a run, tagged by the step kind that raised it. -/
inductive StepError where
  | promptError (msg : String)
  | mkdirError (path : String)
  | writeError (path : String)
  | lookupError (msg : String)
deriving DecidableEq

/-- The effect environment of one run.  The prompt result models the prompt
collector, which may fail when input collection is interrupted.  The lookup
field models the version resolver getLatestVersion (imported from
./getLatestVersion/latestVersion.js, not part of src/): per the spec it
returns a name and latest version or rejects with a descriptive error.  The
two failure predicates inject filesystem faults at chosen paths. -/
structure Env where
  prompt : Except String Answer
  lookup : String → Except String DependencyDescriptor
  mkdirFails : String → Bool
  writeFails : String → Bool

/-- State threaded through a run: the filesystem and the chronological log
of file paths successfully written. -/
structure RunState where
  fs : FS
  writeLog : List String
deriving DecidableEq

/-- One writeFileSync call: fails at paths where the environment injects a
fault, otherwise writes and logs the path. -/
def doWrite (env : Env) (st : RunState) (p c : String) : RunState × Option StepError :=
  if env.writeFails p then (st, some (StepError.writeError p))
  else ({ fs := st.fs.writeFile p c, writeLog := st.writeLog ++ [p] }, none)

/-- A sequence of mkdirSync calls, aborting at the first injected fault. -/
def doMkdirs (env : Env) (st : RunState) : List String → RunState × Option StepError
  | [] => (st, none)
  | p :: rest =>
    if env.mkdirFails p then (st, some (StepError.mkdirError p))
    else doMkdirs env { st with fs := st.fs.mkdir p } rest

/-- The project root derived from the answer (src/index.js line 68). -/
def projectDirOf (name : String) : String := "./" ++ name

/-- The root and the six fixed subdirectories, in creation order
(src/index.js lines 72-78). -/
def subDirPaths (projectDir : String) : List String :=
  [projectDir, projectDir ++ "/routes", projectDir ++ "/controllers",
   projectDir ++ "/utils", projectDir ++ "/middlewares",
   projectDir ++ "/lib", projectDir ++ "/tests"]

/-- Package names of the dependencies batch (src/index.js lines 138-141). -/
def depNames (a : Answer) : List String :=
  ["express"] ++ (if a.useCors then ["cors"] else [])
  ++ (if a.useEnvFile then ["dotenv"] else [])

/-- Package names of the devDependencies batch (src/index.js line 143). -/
def devDepNames : List String := ["nodemon"]

/-- Resolve a batch of lookups; the batch fails as soon as any lookup in it
fails (Promise.all semantics, src/index.js lines 145-146). -/
def resolveAll (lookup : String → Except String DependencyDescriptor) :
    List String → Except String (List DependencyDescriptor)
  | [] => Except.ok []
  | n :: rest =>
    match lookup n with
    | Except.error e => Except.error e
    | Except.ok d =>
      match resolveAll lookup rest with
      | Except.error e => Except.error e
      | Except.ok ds => Except.ok (d :: ds)

/-- Exception propagation between two awaited steps: a failed step aborts
the rest of the try block, a successful one passes its state on. -/
def seqStep (x : RunState × Option StepError)
    (f : RunState → RunState × Option StepError) : RunState × Option StepError :=
  match x with
  | (st, none) => f st
  | (st, some e) => (st, some e)

/-- The body of the try block of createApp (src/index.js lines 63-188):
prompt, conditional directory creation, conditional error files, conditional
env file, entry point, version resolution, manifest.  Returns the state
reached and the error of the first failing step, if any. -/
def runBody (env : Env) (st0 : RunState) : RunState × Option StepError :=
  match env.prompt with
  | Except.error m => (st0, some (StepError.promptError m))
  | Except.ok a =>
    seqStep (if st0.fs.existsPath (projectDirOf a.name) then (st0, none)
             else doMkdirs env st0 (subDirPaths (projectDirOf a.name))) (fun st1 =>
    seqStep (if a.useErrorHandler then
               seqStep (doWrite env st1 (projectDirOf a.name ++ "/middlewares/error.js") jsErrorMiddleware)
                 (fun st => doWrite env st (projectDirOf a.name ++ "/utils/errorHandler.js") jsErrorHandler)
             else (st1, none)) (fun st2 =>
    seqStep (if a.useEnvFile then doWrite env st2 (projectDirOf a.name ++ "/.env") envFileContent
             else (st2, none)) (fun st3 =>
    seqStep (doWrite env st3 (projectDirOf a.name ++ "/app.js") (baseFileContent a)) (fun st4 =>
    match resolveAll env.lookup (depNames a) with
    | Except.error m => (st4, some (StepError.lookupError m))
    | Except.ok deps =>
      match resolveAll env.lookup devDepNames with
      | Except.error m => (st4, some (StepError.lookupError m))
      | Except.ok devDeps =>
        doWrite env st4 (projectDirOf a.name ++ "/package.json") (renderManifest a deps devDeps)))))

/-- Observable outcome of one process run. -/
structure RunOutcome where
  fs : FS
  writeLog : List String
  failure : Option StepError
  errorPrinted : Bool
  exitCode : Nat
deriving DecidableEq

/-- The whole program (src/index.js lines 62-197): run the body; the catch
handler prints any error with console.log and falls through, so the process
never sets a non-zero exit code. -/
def createApp (env : Env) (fs0 : FS) : RunOutcome :=
  match runBody env { fs := fs0, writeLog := [] } with
  | (st, none) =>
    { fs := st.fs, writeLog := st.writeLog, failure := none
      errorPrinted := false, exitCode := 0 }
  | (st, some e) =>
    { fs := st.fs, writeLog := st.writeLog, failure := some e
      errorPrinted := true, exitCode := 0 }

/-- Executable substring occurrence check on character lists. -/
def hasSub (pat : List Char) : List Char → Bool
  | [] => pat.isEmpty
  | c :: rest => pat.isPrefixOf (c :: rest) || hasSub pat rest

/-- The answers of the worked example of the spec: demo with every feature
enabled. -/
def answerDemo : Answer :=
  { name := "demo", useCors := true, useErrorHandler := true, useEnvFile := true }

/-- Effect environment of the worked example: prompts succeed with the demo
answers, every lookup resolves to the fixed versions of the example, and no
filesystem fault is injected. -/
def env7 : Env :=
  { prompt := Except.ok answerDemo
    lookup := fun n =>
      if n = "express" then Except.ok { name := "express", version := "4.18.0" }
      else if n = "cors" then Except.ok { name := "cors", version := "2.8.5" }
      else if n = "dotenv" then Except.ok { name := "dotenv", version := "16.0.0" }
      else if n = "nodemon" then Except.ok { name := "nodemon", version := "3.0.0" }
      else Except.error "unknown package"
    mkdirFails := fun _ => false
    writeFails := fun _ => false }

/-- An environment whose registry is unreachable: every version lookup
rejects. -/
def envBad : Env :=
  { prompt := Except.ok answerDemo
    lookup := fun _ => Except.error "registry unreachable"
    mkdirFails := fun _ => false
    writeFails := fun _ => false }

/-- An initially empty filesystem. -/
def emptyFS : FS := { dirs := [], files := [] }

/-- Whitespace characters of the JSON grammar. -/
def isWsChar : Char → Bool
  | ' ' => true
  | '\n' => true
  | '\t' => true
  | '\r' => true
  | _ => false

/-- Every character of a text that is not JSON whitespace, in order. -/
def coreOf (cs : List Char) : List Char := cs.filter (fun c => !isWsChar c)

/-- A run of JSON whitespace. -/
def AllWs (cs : List Char) : Prop := ∀ c ∈ cs, isWsChar c = true

/-- Characters that may occur in a JSON number token. -/
def numChars : List Char := "0123456789-+.eE".data

/-- A generous shape for JSON number tokens: nonempty, over the number
alphabet, ending in a digit (every RFC 8259 number has this shape). -/
def JNum (cs : List Char) : Prop :=
  cs ≠ [] ∧ (∀ c ∈ cs, c ∈ numChars) ∧ ∃ d, cs.getLast? = some d ∧ d.isDigit = true

/-- The three JSON literal tokens. -/
def JLit (cs : List Char) : Prop :=
  cs = "true".data ∨ cs = "false".data ∨ cs = "null".data

/-- Grammar categories of JSON texts (RFC 8259). -/
inductive JCat where
  | val | obj | arr | members | member | element | elements
deriving DecidableEq

/-- Derivations of JSON syntax, category by category, following the RFC 8259
grammar: a json-text is an element, an element is a value wrapped in
whitespace, objects and arrays hold comma-separated members and elements.
String bodies and number tokens are deliberately generous (any body between
the quotes, any token of number characters ending in a digit), so every
strictly valid JSON text is derivable here: underivability therefore implies
the text is not strictly valid JSON. -/
inductive JSyn : JCat → List Char → Prop where
  | str (b : List Char) : JSyn JCat.val ('\"' :: b ++ ['\"'])
  | num (cs : List Char) (h : JNum cs) : JSyn JCat.val cs
  | lit (cs : List Char) (h : JLit cs) : JSyn JCat.val cs
  | ofObj (cs : List Char) (h : JSyn JCat.obj cs) : JSyn JCat.val cs
  | ofArr (cs : List Char) (h : JSyn JCat.arr cs) : JSyn JCat.val cs
  | objEmpty (w : List Char) (hw : AllWs w) : JSyn JCat.obj ('\x7b' :: w ++ ['\x7d'])
  | objMembers (ms : List Char) (h : JSyn JCat.members ms) :
      JSyn JCat.obj ('\x7b' :: ms ++ ['\x7d'])
  | arrEmpty (w : List Char) (hw : AllWs w) : JSyn JCat.arr ('[' :: w ++ [']'])
  | arrElems (es : List Char) (h : JSyn JCat.elements es) :
      JSyn JCat.arr ('[' :: es ++ [']'])
  | membersSingle (m : List Char) (h : JSyn JCat.member m) : JSyn JCat.members m
  | membersCons (m ms : List Char) (hm : JSyn JCat.member m) (hms : JSyn JCat.members ms) :
      JSyn JCat.members (m ++ ',' :: ms)
  | memberMk (w1 b w2 e : List Char) (hw1 : AllWs w1) (hw2 : AllWs w2)
      (he : JSyn JCat.element e) :
      JSyn JCat.member (w1 ++ ('\"' :: b ++ ['\"']) ++ w2 ++ ':' :: e)
  | elementMk (w1 v w2 : List Char) (hw1 : AllWs w1) (hv : JSyn JCat.val v)
      (hw2 : AllWs w2) : JSyn JCat.element (w1 ++ v ++ w2)
  | elementsSingle (e : List Char) (h : JSyn JCat.element e) : JSyn JCat.elements e
  | elementsCons (e es : List Char) (he : JSyn JCat.element e)
      (hes : JSyn JCat.elements es) : JSyn JCat.elements (e ++ ',' :: es)

/-- A string is a strictly valid JSON text when its characters derive the
json-text (element) category. -/
def IsStrictJsonText (s : String) : Prop := JSyn JCat.element s.data

/-- Invariant of the non-whitespace core of any JSON derivation: nonempty,
never ending in a comma, and never ending in a comma followed by a closing
brace. -/
def GoodCore (core : List Char) : Prop :=
  core ≠ [] ∧ core.getLast? ≠ some ',' ∧ ¬ ∃ p : List Char, core = p ++ [',', '\x7d']

set_option maxRecDepth 10000

theorem str_append_left_cancel {p a b : String} (h : p ++ a = p ++ b) : a = b := by
  have hd := congrArg String.data h
  simp only [String.data_append] at hd
  exact String.ext (List.append_cancel_left hd)

theorem projectPath_ne {n s t : String} (hst : s ≠ t) :
    projectDirOf n ++ s ≠ projectDirOf n ++ t :=
  fun h => hst (str_append_left_cancel h)

theorem importLines_name_irrel (n : String) (c e v : Bool) :
    importLines { name := n, useCors := c, useErrorHandler := e, useEnvFile := v } =
      importLines { name := "", useCors := c, useErrorHandler := e, useEnvFile := v } := rfl

theorem middlewareLines_name_irrel (n : String) (c e v : Bool) :
    middlewareLines { name := n, useCors := c, useErrorHandler := e, useEnvFile := v } =
      middlewareLines { name := "", useCors := c, useErrorHandler := e, useEnvFile := v } := rfl

theorem baseFileContent_name_irrel (n : String) (c e v : Bool) :
    baseFileContent { name := n, useCors := c, useErrorHandler := e, useEnvFile := v } =
      baseFileContent { name := "", useCors := c, useErrorHandler := e, useEnvFile := v } := rfl

/-- Claim C2 as stated is false: in mode STAGING, which is not the
production mode, the rendered middleware does not include the raw error
object in the body, because it checks for DEVELOPMENT literally. -/
theorem c2_counterexample :
    isProductionMode "STAGING" = false ∧
    (errorMiddleware "STAGING" { message := none, statusCode := none }).2.error = none := by
  refine ⟨by decide, rfl⟩

/-- Claim C2, amended: the middleware defaults the message to Internal
Server Error and the status code to 500 (for absent or falsy fields),
responds with a body whose success flag is false, and includes the mutated
error object exactly when the mode is the literal DEVELOPMENT. -/
theorem c2_error_middleware_semantics (mode : String) (e : JsError) :
    (errorMiddleware mode e).2.success = false ∧
    ((e.message = none ∨ e.message = some "") →
      (errorMiddleware mode e).2.message = "Internal Server Error") ∧
    ((e.statusCode = none ∨ e.statusCode = some 0) → (errorMiddleware mode e).1 = 500) ∧
    ((errorMiddleware mode e).2.error ≠ none ↔ mode = "DEVELOPMENT") := by
  obtain ⟨m, s⟩ := e
  refine ⟨rfl, ?_, ?_, ?_⟩
  · rintro (h | h) <;> simp_all [errorMiddleware]
  · rintro (h | h) <;> simp_all [errorMiddleware]
  · by_cases h : mode = "DEVELOPMENT" <;> simp [errorMiddleware, h]

/-- Witness for the amended claim C2 at a concrete error and mode. -/
theorem c2_error_middleware_semantics_witness :
    (errorMiddleware "STAGING" { message := none, statusCode := none }).2.success = false ∧
    (((none : Option String) = none ∨ (none : Option String) = some "") →
      (errorMiddleware "STAGING" { message := none, statusCode := none }).2.message =
        "Internal Server Error") ∧
    (((none : Option Nat) = none ∨ (none : Option Nat) = some 0) →
      (errorMiddleware "STAGING" { message := none, statusCode := none }).1 = 500) ∧
    ((errorMiddleware "STAGING" { message := none, statusCode := none }).2.error ≠ none ↔
      "STAGING" = "DEVELOPMENT") :=
  c2_error_middleware_semantics "STAGING" { message := none, statusCode := none }

/-- Claim C6: with CORS enabled, the import list has the CORS import after
the framework import and before any env-loader import, and the middleware
list has the CORS registration after the JSON and URL-encoded body-parsing
registrations. -/
theorem c6_cors_ordering (a : Answer) (hc : a.useCors = true) :
    corsImport ∈ importLines a ∧
    (importLines a).indexOf expressImport < (importLines a).indexOf corsImport ∧
    (dotenvImport ∈ importLines a →
      (importLines a).indexOf corsImport < (importLines a).indexOf dotenvImport) ∧
    corsMw ∈ middlewareLines a ∧
    (middlewareLines a).indexOf jsonMw < (middlewareLines a).indexOf corsMw ∧
    (middlewareLines a).indexOf urlencodedMw < (middlewareLines a).indexOf corsMw := by
  obtain ⟨n, c, e, v⟩ := a
  simp only at hc
  subst hc
  rw [importLines_name_irrel, middlewareLines_name_irrel]
  cases e <;> cases v <;> decide

/-- Witness for claim C6 at the demo answers. -/
theorem c6_cors_ordering_witness :
    corsImport ∈ importLines answerDemo ∧
    (importLines answerDemo).indexOf expressImport <
      (importLines answerDemo).indexOf corsImport ∧
    (dotenvImport ∈ importLines answerDemo →
      (importLines answerDemo).indexOf corsImport <
        (importLines answerDemo).indexOf dotenvImport) ∧
    corsMw ∈ middlewareLines answerDemo ∧
    (middlewareLines answerDemo).indexOf jsonMw <
      (middlewareLines answerDemo).indexOf corsMw ∧
    (middlewareLines answerDemo).indexOf urlencodedMw <
      (middlewareLines answerDemo).indexOf corsMw :=
  c6_cors_ordering answerDemo rfl

/-- Claim C8: manifest rendering is a deterministic pure function of the
Answer Record and the resolved dependency descriptors, so two runs with
equal inputs render byte-identical manifest text. -/
theorem c8_manifest_deterministic (a₁ a₂ : Answer) (d₁ d₂ v₁ v₂ : List DependencyDescriptor)
    (ha : a₁ = a₂) (hd : d₁ = d₂) (hv : v₁ = v₂) :
    renderManifest a₁ d₁ v₁ = renderManifest a₂ d₂ v₂ := by
  subst ha; subst hd; subst hv; rfl

/-- Witness for claim C8 at the demo inputs. -/
theorem c8_manifest_deterministic_witness :
    renderManifest answerDemo
        [{ name := "express", version := "4.18.0" }] [{ name := "nodemon", version := "3.0.0" }] =
      renderManifest answerDemo
        [{ name := "express", version := "4.18.0" }] [{ name := "nodemon", version := "3.0.0" }] :=
  c8_manifest_deterministic _ _ _ _ _ _ rfl rfl rfl

theorem seqStep_ok (st : RunState) (f : RunState → RunState × Option StepError) :
    seqStep (st, none) f = f st := rfl

theorem seqStep_err (st : RunState) (e : StepError)
    (f : RunState → RunState × Option StepError) : seqStep (st, some e) f = (st, some e) := rfl

theorem doMkdirs_log (env : Env) : ∀ (ps : List String) (st : RunState),
    ((doMkdirs env st ps).1).writeLog = st.writeLog := by
  intro ps
  induction ps with
  | nil => intro st; rfl
  | cons p rest ih =>
    intro st
    unfold doMkdirs
    by_cases h : env.mkdirFails p <;> simp [h, ih]

theorem doWrite_log (env : Env) (st : RunState) (p c : String) :
    ((doWrite env st p c).1).writeLog = st.writeLog ∨
      ((doWrite env st p c).1).writeLog = st.writeLog ++ [p] := by
  unfold doWrite
  by_cases h : env.writeFails p <;> simp [h]

theorem doWrite_pair_log {env : Env} {st : RunState} {p c : String} {st' : RunState}
    {e : Option StepError} (h : doWrite env st p c = (st', e)) :
    st'.writeLog = st.writeLog ∨ st'.writeLog = st.writeLog ++ [p] := by
  have hl := doWrite_log env st p c
  rw [h] at hl
  exact hl

theorem mem_of_log_choice {q pth : String} {L M : List String}
    (h : M = L ∨ M = L ++ [pth]) (hq : q ∈ M) : q ∈ L ∨ q = pth := by
  rcases h with rfl | rfl
  · exact Or.inl hq
  · rcases List.mem_append.mp hq with h | h
    · exact Or.inl h
    · simp only [List.mem_singleton] at h
      exact Or.inr h

theorem runBody_log_mem (env : Env) (st0 : RunState) (a : Answer)
    (hp : env.prompt = Except.ok a) (p : String)
    (hmem : p ∈ ((runBody env st0).1).writeLog) :
    p ∈ st0.writeLog ∨
    (p = projectDirOf a.name ++ "/middlewares/error.js" ∧ a.useErrorHandler = true) ∨
    (p = projectDirOf a.name ++ "/utils/errorHandler.js" ∧ a.useErrorHandler = true) ∨
    (p = projectDirOf a.name ++ "/.env" ∧ a.useEnvFile = true) ∨
    p = projectDirOf a.name ++ "/app.js" ∨
    (p = projectDirOf a.name ++ "/package.json" ∧
      (∃ ds, resolveAll env.lookup (depNames a) = Except.ok ds) ∧
      (∃ ds, resolveAll env.lookup devDepNames = Except.ok ds)) := by
  revert hmem
  unfold runBody
  rw [hp]
  dsimp only
  -- directory phase
  rcases hD : (if st0.fs.existsPath (projectDirOf a.name) = true then (st0, none)
      else doMkdirs env st0 (subDirPaths (projectDirOf a.name))) with ⟨st1, e1⟩
  have h1 : st1.writeLog = st0.writeLog := by
    split at hD
    · cases hD; rfl
    · have := doMkdirs_log env (subDirPaths (projectDirOf a.name)) st0
      rw [hD] at this
      exact this
  cases e1 with
  | some err =>
    rw [seqStep_err]
    intro hmem
    rw [h1] at hmem
    exact Or.inl hmem
  | none =>
    rw [seqStep_ok]
    -- error-files phase
    rcases hE : (if a.useErrorHandler = true then
        seqStep (doWrite env st1 (projectDirOf a.name ++ "/middlewares/error.js") jsErrorMiddleware)
          (fun st => doWrite env st (projectDirOf a.name ++ "/utils/errorHandler.js") jsErrorHandler)
      else (st1, none)) with ⟨st2, e2⟩
    have h2 : ∀ q, q ∈ st2.writeLog → q ∈ st0.writeLog ∨
        (q = projectDirOf a.name ++ "/middlewares/error.js" ∧ a.useErrorHandler = true) ∨
        (q = projectDirOf a.name ++ "/utils/errorHandler.js" ∧ a.useErrorHandler = true) := by
      intro q hq
      split at hE
      next heh =>
        rcases hW1 : doWrite env st1 (projectDirOf a.name ++ "/middlewares/error.js") jsErrorMiddleware
          with ⟨stA, eA⟩
        rw [hW1] at hE
        cases eA with
        | some errA =>
          rw [seqStep_err] at hE
          cases hE
          rcases mem_of_log_choice (doWrite_pair_log hW1) hq with h | h
          · rw [h1] at h; exact Or.inl h
          · exact Or.inr (Or.inl ⟨h, heh⟩)
        | none =>
          rw [seqStep_ok] at hE
          rcases mem_of_log_choice (doWrite_pair_log hE) hq with h | h
          · rcases mem_of_log_choice (doWrite_pair_log hW1) h with h' | h'
            · rw [h1] at h'; exact Or.inl h'
            · exact Or.inr (Or.inl ⟨h', heh⟩)
          · exact Or.inr (Or.inr ⟨h, heh⟩)
      next heh =>
        cases hE
        rw [h1] at hq
        exact Or.inl hq
    cases e2 with
    | some err =>
      rw [seqStep_err]
      intro hmem
      rcases h2 p hmem with h | h | h <;> tauto
    | none =>
      rw [seqStep_ok]
      -- env-file phase
      rcases hV : (if a.useEnvFile = true then
          doWrite env st2 (projectDirOf a.name ++ "/.env") envFileContent
        else (st2, none)) with ⟨st3, e3⟩
      have h3 : ∀ q, q ∈ st3.writeLog → q ∈ st0.writeLog ∨
          (q = projectDirOf a.name ++ "/middlewares/error.js" ∧ a.useErrorHandler = true) ∨
          (q = projectDirOf a.name ++ "/utils/errorHandler.js" ∧ a.useErrorHandler = true) ∨
          (q = projectDirOf a.name ++ "/.env" ∧ a.useEnvFile = true) := by
        intro q hq
        split at hV
        next hev =>
          rcases mem_of_log_choice (doWrite_pair_log hV) hq with h | h
          · rcases h2 q h with h' | h' | h' <;> tauto
          · exact Or.inr (Or.inr (Or.inr ⟨h, hev⟩))
        next hev =>
          cases hV
          rcases h2 q hq with h' | h' | h' <;> tauto
      cases e3 with
      | some err =>
        rw [seqStep_err]
        intro hmem
        rcases h3 p hmem with h | h | h | h <;> tauto
      | none =>
        rw [seqStep_ok]
        -- entry-point write
        rcases hA : doWrite env st3 (projectDirOf a.name ++ "/app.js") (baseFileContent a)
          with ⟨st4, e4⟩
        have h4 : ∀ q, q ∈ st4.writeLog → q ∈ st0.writeLog ∨
            (q = projectDirOf a.name ++ "/middlewares/error.js" ∧ a.useErrorHandler = true) ∨
            (q = projectDirOf a.name ++ "/utils/errorHandler.js" ∧ a.useErrorHandler = true) ∨
            (q = projectDirOf a.name ++ "/.env" ∧ a.useEnvFile = true) ∨
            q = projectDirOf a.name ++ "/app.js" := by
          intro q hq
          rcases mem_of_log_choice (doWrite_pair_log hA) hq with h | h
          · rcases h3 q h with h' | h' | h' | h' <;> tauto
          · exact Or.inr (Or.inr (Or.inr (Or.inr h)))
        cases e4 with
        | some err =>
          rw [seqStep_err]
          intro hmem
          rcases h4 p hmem with h | h | h | h | h <;> tauto
        | none =>
          rw [seqStep_ok]
          -- version resolution and manifest
          rcases hR1 : resolveAll env.lookup (depNames a) with m | deps
          · intro hmem
            rcases h4 p hmem with h | h | h | h | h <;> tauto
          · rcases hR2 : resolveAll env.lookup devDepNames with m | devDeps
            · intro hmem
              rcases h4 p hmem with h | h | h | h | h <;> tauto
            · intro hmem
              rcases mem_of_log_choice
                  (doWrite_log env st4 (projectDirOf a.name ++ "/package.json")
                    (renderManifest a deps devDeps)) hmem with h | h
              · rcases h4 p h with h' | h' | h' | h' | h' <;> tauto
              · refine Or.inr (Or.inr (Or.inr (Or.inr (Or.inr ?_))))
                exact ⟨h, ⟨deps, rfl⟩, ⟨devDeps, rfl⟩⟩

theorem createApp_log (env : Env) (fs0 : FS) :
    (createApp env fs0).writeLog = ((runBody env { fs := fs0, writeLog := [] }).1).writeLog := by
  unfold createApp
  rcases hR : runBody env { fs := fs0, writeLog := [] } with ⟨st, e⟩
  cases e <;> rfl

theorem createApp_fs (env : Env) (fs0 : FS) :
    (createApp env fs0).fs = ((runBody env { fs := fs0, writeLog := [] }).1).fs := by
  unfold createApp
  rcases hR : runBody env { fs := fs0, writeLog := [] } with ⟨st, e⟩
  cases e <;> rfl

theorem createApp_failure (env : Env) (fs0 : FS) :
    (createApp env fs0).failure = (runBody env { fs := fs0, writeLog := [] }).2 := by
  unfold createApp
  rcases hR : runBody env { fs := fs0, writeLog := [] } with ⟨st, e⟩
  cases e <;> rfl

/-- Claim C1 as stated is false: with an unreachable registry the version
lookup step fails and the error is printed, yet the process exit code is
still zero, because the catch handler only logs the error and never sets a
non-zero exit code. -/
theorem c1_counterexample :
    (createApp envBad emptyFS).failure.isSome = true ∧
    (createApp envBad emptyFS).errorPrinted = true ∧
    (createApp envBad emptyFS).exitCode = 0 := by decide

/-- Claim C1, amended: every run exits with code zero; when a step fails
the caught error is printed, and on success nothing is printed as an
error.  The failure field is exactly the error of the first failing step of
the try block. -/
theorem c1_exit_behavior (env : Env) (fs0 : FS) :
    (createApp env fs0).exitCode = 0 ∧
    (createApp env fs0).failure = (runBody env { fs := fs0, writeLog := [] }).2 ∧
    ((createApp env fs0).failure.isSome → (createApp env fs0).errorPrinted = true) ∧
    ((createApp env fs0).failure = none → (createApp env fs0).errorPrinted = false) := by
  unfold createApp
  rcases hR : runBody env { fs := fs0, writeLog := [] } with ⟨st, e⟩
  cases e <;> simp

/-- Witness for the amended claim C1 at the demo environment. -/
theorem c1_exit_behavior_witness :
    (createApp env7 emptyFS).exitCode = 0 ∧
    (createApp env7 emptyFS).failure = (runBody env7 { fs := emptyFS, writeLog := [] }).2 ∧
    ((createApp env7 emptyFS).failure.isSome → (createApp env7 emptyFS).errorPrinted = true) ∧
    ((createApp env7 emptyFS).failure = none → (createApp env7 emptyFS).errorPrinted = false) :=
  c1_exit_behavior env7 emptyFS

/-- Claim C3: when any version lookup of either batch fails, the manifest
file is never written: its path never enters the write log of the run. -/
theorem c3_failed_lookup_no_manifest (env : Env) (fs0 : FS) (a : Answer)
    (hp : env.prompt = Except.ok a)
    (hfail : (∃ m, resolveAll env.lookup (depNames a) = Except.error m) ∨
             (∃ m, resolveAll env.lookup devDepNames = Except.error m)) :
    (projectDirOf a.name ++ "/package.json") ∉ (createApp env fs0).writeLog := by
  intro hmem
  rw [createApp_log] at hmem
  rcases runBody_log_mem env { fs := fs0, writeLog := [] } a hp _ hmem with
    h | h | h | h | h | h
  · simp at h
  · exact absurd (str_append_left_cancel h.1) (by decide)
  · exact absurd (str_append_left_cancel h.1) (by decide)
  · exact absurd (str_append_left_cancel h.1) (by decide)
  · exact absurd (str_append_left_cancel h) (by decide)
  · rcases hfail with ⟨m, hm⟩ | ⟨m, hm⟩
    · rcases h.2.1 with ⟨ds, hds⟩
      rw [hm] at hds
      cases hds
    · rcases h.2.2 with ⟨ds, hds⟩
      rw [hm] at hds
      cases hds

/-- Witness for claim C3: with the registry down, the demo run does not
write the manifest. -/
theorem c3_failed_lookup_no_manifest_witness :
    (projectDirOf answerDemo.name ++ "/package.json") ∉ (createApp envBad emptyFS).writeLog :=
  c3_failed_lookup_no_manifest envBad emptyFS answerDemo rfl
    (Or.inl ⟨"registry unreachable", rfl⟩)

/-- Claim C5: with the error handler disabled, the rendered entry point
contains no occurrence of the errorMiddleware token (so neither the import
nor the registration line), and neither error-handling file path is ever
written. -/
theorem c5_no_error_handler_artifacts (env : Env) (fs0 : FS) (a : Answer)
    (hp : env.prompt = Except.ok a) (heh : a.useErrorHandler = false) :
    hasSub "errorMiddleware".data (baseFileContent a).data = false ∧
    projectDirOf a.name ++ "/middlewares/error.js" ∉ (createApp env fs0).writeLog ∧
    projectDirOf a.name ++ "/utils/errorHandler.js" ∉ (createApp env fs0).writeLog := by
  refine ⟨?_, ?_, ?_⟩
  · obtain ⟨n, c, e, v⟩ := a
    simp only at heh
    subst heh
    rw [baseFileContent_name_irrel]
    cases c <;> cases v <;> decide
  · intro hmem
    rw [createApp_log] at hmem
    rcases runBody_log_mem env { fs := fs0, writeLog := [] } a hp _ hmem with
      h | h | h | h | h | h
    · simp at h
    · rw [heh] at h; cases h.2
    · exact absurd (str_append_left_cancel h.1) (by decide)
    · exact absurd (str_append_left_cancel h.1) (by decide)
    · exact absurd (str_append_left_cancel h) (by decide)
    · exact absurd (str_append_left_cancel h.1) (by decide)
  · intro hmem
    rw [createApp_log] at hmem
    rcases runBody_log_mem env { fs := fs0, writeLog := [] } a hp _ hmem with
      h | h | h | h | h | h
    · simp at h
    · exact absurd (str_append_left_cancel h.1) (by decide)
    · rw [heh] at h; cases h.2
    · exact absurd (str_append_left_cancel h.1) (by decide)
    · exact absurd (str_append_left_cancel h) (by decide)
    · exact absurd (str_append_left_cancel h.1) (by decide)

/-- Witness for claim C5 at concrete answers with the error handler off. -/
theorem c5_no_error_handler_artifacts_witness :
    hasSub "errorMiddleware".data
      (baseFileContent { name := "demo", useCors := true, useErrorHandler := false, useEnvFile := true }).data = false ∧
    projectDirOf "demo" ++ "/middlewares/error.js" ∉
      (createApp { prompt := Except.ok { name := "demo", useCors := true, useErrorHandler := false, useEnvFile := true },
                   lookup := env7.lookup, mkdirFails := env7.mkdirFails,
                   writeFails := env7.writeFails } emptyFS).writeLog ∧
    projectDirOf "demo" ++ "/utils/errorHandler.js" ∉
      (createApp { prompt := Except.ok { name := "demo", useCors := true, useErrorHandler := false, useEnvFile := true },
                   lookup := env7.lookup, mkdirFails := env7.mkdirFails,
                   writeFails := env7.writeFails } emptyFS).writeLog :=
  c5_no_error_handler_artifacts _ emptyFS _ rfl rfl

theorem doWrite_pair_dirs {env : Env} {st : RunState} {p c : String} {st' : RunState}
    {e : Option StepError} (h : doWrite env st p c = (st', e)) :
    st'.fs.dirs = st.fs.dirs := by
  unfold doWrite at h
  split at h
  · cases h; rfl
  · cases h; rfl

theorem doWrite_pair_err {env : Env} {st : RunState} {p c : String} {st' : RunState}
    {e : Option StepError} (h : doWrite env st p c = (st', e)) :
    e = none ∨ e = some (StepError.writeError p) := by
  unfold doWrite at h
  split at h
  · cases h; exact Or.inr rfl
  · cases h; exact Or.inl rfl

/-- Claim C4: when the project root already exists, the run performs no
directory creation at all: the directory set is unchanged (none of the six
subdirectories is created, even if missing) and no directory-creation error
can be raised. -/
theorem c4_existing_root_skips_dirs (env : Env) (fs0 : FS) (a : Answer)
    (hp : env.prompt = Except.ok a)
    (hex : fs0.existsPath (projectDirOf a.name) = true) :
    (createApp env fs0).fs.dirs = fs0.dirs ∧
    ∀ q, (createApp env fs0).failure ≠ some (StepError.mkdirError q) := by
  rw [createApp_fs, createApp_failure]
  rcases hRes : runBody env { fs := fs0, writeLog := [] } with ⟨stF, eF⟩
  unfold runBody at hRes
  rw [hp] at hRes
  dsimp only at hRes
  rw [if_pos hex, seqStep_ok] at hRes
  -- error-files phase
  rcases hE : (if a.useErrorHandler = true then
      seqStep (doWrite env { fs := fs0, writeLog := [] }
          (projectDirOf a.name ++ "/middlewares/error.js") jsErrorMiddleware)
        (fun st => doWrite env st (projectDirOf a.name ++ "/utils/errorHandler.js") jsErrorHandler)
    else ({ fs := fs0, writeLog := [] }, none)) with ⟨st2, e2⟩
  rw [hE] at hRes
  have h2 : st2.fs.dirs = fs0.dirs ∧ ∀ q, e2 ≠ some (StepError.mkdirError q) := by
    split at hE
    · rcases hW1 : doWrite env { fs := fs0, writeLog := [] }
          (projectDirOf a.name ++ "/middlewares/error.js") jsErrorMiddleware with ⟨stA, eA⟩
      rw [hW1] at hE
      cases eA with
      | some errA =>
        rw [seqStep_err] at hE
        cases hE
        refine ⟨doWrite_pair_dirs hW1, ?_⟩
        intro q hq
        rcases doWrite_pair_err hW1 with h | h <;> simp [h] at hq
      | none =>
        rw [seqStep_ok] at hE
        refine ⟨by rw [doWrite_pair_dirs hE, doWrite_pair_dirs hW1], ?_⟩
        intro q hq
        rcases doWrite_pair_err hE with h | h <;> simp [h] at hq
    · cases hE
      exact ⟨rfl, by intro q hq; cases hq⟩
  cases e2 with
  | some err =>
    rw [seqStep_err] at hRes
    cases hRes
    exact h2
  | none =>
    rw [seqStep_ok] at hRes
    rcases hV : (if a.useEnvFile = true then
        doWrite env st2 (projectDirOf a.name ++ "/.env") envFileContent
      else (st2, none)) with ⟨st3, e3⟩
    rw [hV] at hRes
    have h3 : st3.fs.dirs = fs0.dirs ∧ ∀ q, e3 ≠ some (StepError.mkdirError q) := by
      split at hV
      · refine ⟨by rw [doWrite_pair_dirs hV, h2.1], ?_⟩
        intro q hq
        rcases doWrite_pair_err hV with h | h <;> simp [h] at hq
      · cases hV
        exact ⟨h2.1, by intro q hq; cases hq⟩
    cases e3 with
    | some err =>
      rw [seqStep_err] at hRes
      cases hRes
      exact h3
    | none =>
      rw [seqStep_ok] at hRes
      rcases hA : doWrite env st3 (projectDirOf a.name ++ "/app.js") (baseFileContent a)
        with ⟨st4, e4⟩
      rw [hA] at hRes
      have h4 : st4.fs.dirs = fs0.dirs ∧ ∀ q, e4 ≠ some (StepError.mkdirError q) := by
        refine ⟨by rw [doWrite_pair_dirs hA, h3.1], ?_⟩
        intro q hq
        rcases doWrite_pair_err hA with h | h <;> simp [h] at hq
      cases e4 with
      | some err =>
        rw [seqStep_err] at hRes
        cases hRes
        exact h4
      | none =>
        rw [seqStep_ok] at hRes
        rcases hR1 : resolveAll env.lookup (depNames a) with m | deps
        · rw [hR1] at hRes
          cases hRes
          exact ⟨h4.1, by intro q hq; cases hq⟩
        · rw [hR1] at hRes
          rcases hR2 : resolveAll env.lookup devDepNames with m | devDeps
          · rw [hR2] at hRes
            cases hRes
            exact ⟨h4.1, by intro q hq; cases hq⟩
          · rw [hR2] at hRes
            refine ⟨by rw [doWrite_pair_dirs hRes, h4.1], ?_⟩
            intro q hq
            rcases doWrite_pair_err hRes with h | h <;> simp [h] at hq

/-- Witness for claim C4: a run against a filesystem that already holds the
demo root leaves the directory set unchanged. -/
theorem c4_existing_root_skips_dirs_witness :
    (createApp env7 { dirs := ["./demo"], files := [] }).fs.dirs = ["./demo"] ∧
    ∀ q, (createApp env7 { dirs := ["./demo"], files := [] }).failure ≠
      some (StepError.mkdirError q) :=
  c4_existing_root_skips_dirs env7 { dirs := ["./demo"], files := [] } answerDemo rfl (by decide)

/-- Claim C7: the demo run renders the manifest with exactly the three
resolved dependencies and nodemon as the only development dependency,
assembles the imports in the order framework, CORS, error middleware,
env loader, and writes the env file with exactly PORT=5000. -/
theorem c7_demo_run :
    importLines answerDemo = [expressImport, corsImport, errMidImport, dotenvImport] ∧
    (createApp env7 emptyFS).fs.readFile "./demo/package.json" =
      some (packageJsonContent "demo"
        ["\"express\": \"4.18.0\"", "\"cors\": \"2.8.5\"", "\"dotenv\": \"16.0.0\""]
        ["\"nodemon\": \"3.0.0\""]) ∧
    (createApp env7 emptyFS).fs.readFile "./demo/.env" = some "PORT=5000" ∧
    "./demo/.env" ∈ (createApp env7 emptyFS).writeLog ∧
    (createApp env7 emptyFS).failure = none := by
  refine ⟨rfl, by decide, by decide, by decide, rfl⟩

theorem find_filter_ne {p q : String} (h : q ≠ p) : ∀ l : List (String × String),
    List.find? (fun e => e.1 == q) (List.filter (fun e => e.1 != p) l) =
      List.find? (fun e => e.1 == q) l := by
  intro l
  induction l with
  | nil => rfl
  | cons hd tl ih =>
    by_cases hq : hd.1 = q
    · have h1 : (hd.1 != p) = true := by
        simp only [bne_iff_ne, ne_eq, hq]
        exact h
      have h2 : (hd.1 == q) = true := by simp [hq]
      simp [List.filter_cons, List.find?_cons, h1, h2]
    · have h2 : (hd.1 == q) = false := by simp [hq]
      by_cases hp : hd.1 = p
      · have h1 : (hd.1 != p) = false := by simp [bne, hp]
        simp [List.filter_cons, List.find?_cons, h1, h2, ih]
      · have h1 : (hd.1 != p) = true := by
          simp only [bne_iff_ne, ne_eq]
          exact hp
        simp [List.filter_cons, List.find?_cons, h1, h2, ih]

theorem FS.readFile_writeFile_same (fs : FS) (p c : String) :
    (fs.writeFile p c).readFile p = some c := by
  unfold FS.writeFile FS.readFile
  simp [List.find?_cons]

theorem FS.readFile_writeFile_ne (fs : FS) {p q : String} (c : String) (h : q ≠ p) :
    (fs.writeFile p c).readFile q = fs.readFile q := by
  unfold FS.writeFile FS.readFile
  have hh : ((p, c).1 == q) = false := by
    simp only [beq_eq_false_iff_ne, ne_eq]
    exact fun hc => h hc.symm
  simp only [List.find?_cons, hh]
  rw [find_filter_ne h fs.files]

theorem doWrite_ok {env : Env} {st : RunState} {p c : String} {st' : RunState}
    (h : doWrite env st p c = (st', none)) :
    st' = { fs := st.fs.writeFile p c, writeLog := st.writeLog ++ [p] } := by
  unfold doWrite at h
  split at h
  · cases h
  · cases h; rfl

/-- Claim C10: with the env file enabled, a successful run writes the
environment file at the relative path .env under the project root with the
default port contents, while the rendered entry point loads environment
variables from the literal path ./env, which is a different path (the
rendered file nowhere mentions ./.env). -/
theorem c10_env_path_mismatch (env : Env) (fs0 : FS) (a : Answer)
    (hp : env.prompt = Except.ok a) (hv : a.useEnvFile = true)
    (hs : (createApp env fs0).failure = none) :
    (projectDirOf a.name ++ "/.env") ∈ (createApp env fs0).writeLog ∧
    (createApp env fs0).fs.readFile (projectDirOf a.name ++ "/.env") = some envFileContent ∧
    hasSub envConfigLine.data (baseFileContent a).data = true ∧
    hasSub "\x27./.env\x27".data (baseFileContent a).data = false ∧
    "./env" ≠ "./.env" := by
  have hcontent :
      hasSub envConfigLine.data (baseFileContent a).data = true ∧
      hasSub "\x27./.env\x27".data (baseFileContent a).data = false := by
    obtain ⟨n, c, e, v⟩ := a
    simp only at hv
    subst hv
    rw [baseFileContent_name_irrel]
    cases c <;> cases e <;> exact ⟨by decide, by decide⟩
  rw [createApp_failure] at hs
  rw [createApp_log, createApp_fs]
  rcases hRes : runBody env { fs := fs0, writeLog := [] } with ⟨stF, eF⟩
  rw [hRes] at hs
  simp only at hs
  subst hs
  unfold runBody at hRes
  rw [hp] at hRes
  dsimp only at hRes
  rcases hD : (if fs0.existsPath (projectDirOf a.name) = true
      then (({ fs := fs0, writeLog := [] } : RunState), (none : Option StepError))
      else doMkdirs env { fs := fs0, writeLog := [] } (subDirPaths (projectDirOf a.name)))
    with ⟨st1, e1⟩
  rw [hD] at hRes
  cases e1 with
  | some err => rw [seqStep_err] at hRes; simp at hRes
  | none =>
    rw [seqStep_ok] at hRes
    have h1log : st1.writeLog = [] := by
      have := doMkdirs_log env (subDirPaths (projectDirOf a.name)) { fs := fs0, writeLog := [] }
      split at hD
      · cases hD; rfl
      · rw [hD] at this; exact this
    rcases hE : (if a.useErrorHandler = true then
        seqStep (doWrite env st1 (projectDirOf a.name ++ "/middlewares/error.js") jsErrorMiddleware)
          (fun st => doWrite env st (projectDirOf a.name ++ "/utils/errorHandler.js") jsErrorHandler)
      else (st1, none)) with ⟨st2, e2⟩
    rw [hE] at hRes
    cases e2 with
    | some err => rw [seqStep_err] at hRes; simp at hRes
    | none =>
      rw [seqStep_ok] at hRes
      rw [if_pos hv] at hRes
      rcases hV : doWrite env st2 (projectDirOf a.name ++ "/.env") envFileContent
        with ⟨st3, e3⟩
      rw [hV] at hRes
      cases e3 with
      | some err => rw [seqStep_err] at hRes; simp at hRes
      | none =>
        rw [seqStep_ok] at hRes
        have h3 := doWrite_ok hV
        rcases hA : doWrite env st3 (projectDirOf a.name ++ "/app.js") (baseFileContent a)
          with ⟨st4, e4⟩
        rw [hA] at hRes
        cases e4 with
        | some err => rw [seqStep_err] at hRes; simp at hRes
        | none =>
          rw [seqStep_ok] at hRes
          have h4 := doWrite_ok hA
          rcases hR1 : resolveAll env.lookup (depNames a) with m | deps
          · rw [hR1] at hRes; simp at hRes
          · rw [hR1] at hRes
            rcases hR2 : resolveAll env.lookup devDepNames with m | devDeps
            · rw [hR2] at hRes; simp at hRes
            · rw [hR2] at hRes
              have hF := doWrite_ok hRes
              subst h3 h4 hF
              refine ⟨?_, ?_, hcontent.1, hcontent.2, by decide⟩
              · simp
              · rw [FS.readFile_writeFile_ne _ _ (projectPath_ne (by decide)),
                  FS.readFile_writeFile_ne _ _ (projectPath_ne (by decide)),
                  FS.readFile_writeFile_same]

/-- Witness for claim C10 at the demo run. -/
theorem c10_env_path_mismatch_witness :
    (projectDirOf answerDemo.name ++ "/.env") ∈ (createApp env7 emptyFS).writeLog ∧
    (createApp env7 emptyFS).fs.readFile (projectDirOf answerDemo.name ++ "/.env") =
      some envFileContent ∧
    hasSub envConfigLine.data (baseFileContent answerDemo).data = true ∧
    hasSub "\x27./.env\x27".data (baseFileContent answerDemo).data = false ∧
    "./env" ≠ "./.env" :=
  c10_env_path_mismatch env7 emptyFS answerDemo rfl rfl (by decide)

theorem coreOf_append (a b : List Char) : coreOf (a ++ b) = coreOf a ++ coreOf b :=
  List.filter_append a b

theorem coreOf_ws {w : List Char} (hw : AllWs w) : coreOf w = [] := by
  apply List.filter_eq_nil_iff.mpr
  intro c hc
  simp [hw c hc]

theorem coreOf_cons_nonws (c : Char) (l : List Char) (h : isWsChar c = false) :
    coreOf (c :: l) = c :: coreOf l := by
  simp [coreOf, List.filter_cons, h]

theorem getLast?_cons_append (x : Char) (A B : List Char) (hB : B ≠ []) :
    (A ++ x :: B).getLast? = B.getLast? := by
  rw [show x :: B = [x] ++ B from rfl, ← List.append_assoc,
    List.getLast?_append_of_ne_nil _ hB]

theorem bad_tail {A B : List Char} {x : Char} (hB1 : B ≠ []) (hB2 : B ≠ ['\x7d'])
    (hB3 : ¬ ∃ p : List Char, B = p ++ [',', '\x7d'])
    (hbad : ∃ p : List Char, A ++ x :: B = p ++ [',', '\x7d']) : False := by
  rcases hbad with ⟨p, hp⟩
  have hlen : A.length + (1 + B.length) = p.length + 2 := by
    have := congrArg List.length hp
    simpa [List.length_append, Nat.add_comm, Nat.add_assoc, Nat.add_left_comm] using this
  have hBpos : 1 ≤ B.length := by
    cases B with
    | nil => exact absurd rfl hB1
    | cons _ _ => simp
  have hAp : A.length ≤ p.length := by omega
  have hdrop := congrArg (List.drop A.length) hp
  rw [List.drop_left, List.drop_append_of_le_length hAp] at hdrop
  rcases hq : p.drop A.length with _ | ⟨y, ys⟩
  · rw [hq] at hdrop
    simp only [List.nil_append] at hdrop
    injection hdrop with h1 h2
    exact hB2 h2
  · rw [hq] at hdrop
    simp only [List.cons_append] at hdrop
    injection hdrop with h1 h2
    exact hB3 ⟨ys, h2⟩

theorem good_of_last_ne {core : List Char} (h1 : core ≠ [])
    (h2 : core.getLast? ≠ some ',') (h3 : core.getLast? ≠ some '\x7d') :
    GoodCore core := by
  refine ⟨h1, h2, ?_⟩
  rintro ⟨p, rfl⟩
  apply h3
  rw [show p ++ [',', '\x7d'] = (p ++ [',']) ++ ['\x7d'] by simp, List.getLast?_concat]

theorem numChars_not_ws : ∀ c ∈ numChars, isWsChar c = false := by decide

theorem jsyn_core_inv {k : JCat} {cs : List Char} (h : JSyn k cs) :
    GoodCore (coreOf cs) ∧ coreOf cs ≠ ['\x7d'] := by
  induction h with
  | str b =>
    rw [coreOf_append, coreOf_cons_nonws '\"' _ (by decide),
      show coreOf ['\"'] = ['\"'] from by decide]
    constructor
    · apply good_of_last_ne
      · simp
      · rw [List.getLast?_concat]
        decide
      · rw [List.getLast?_concat]
        decide
    · intro hcon
      have hl := congrArg List.length hcon
      simp only [List.length_append, List.length_cons, List.length_nil] at hl
      omega
  | num cs h =>
    obtain ⟨hne, hchars, d, hd, hdig⟩ := h
    have hcs : coreOf cs = cs :=
      List.filter_eq_self.mpr (fun c hc => by simp [numChars_not_ws c (hchars c hc)])
    rw [hcs]
    constructor
    · apply good_of_last_ne hne
      · intro hcon
        rw [hd] at hcon
        injection hcon with h1
        subst h1
        exact absurd hdig (by decide)
      · intro hcon
        rw [hd] at hcon
        injection hcon with h1
        subst h1
        exact absurd hdig (by decide)
    · intro hcon
      have := hchars '\x7d' (by rw [hcon]; simp)
      exact absurd this (by decide)
  | lit cs h =>
    rcases h with h | h | h <;> subst h <;>
      exact ⟨good_of_last_ne (by decide) (by decide) (by decide), by decide⟩
  | ofObj cs h ih => exact ih
  | ofArr cs h ih => exact ih
  | objEmpty w hw =>
    rw [coreOf_append, coreOf_cons_nonws '\x7b' _ (by decide), coreOf_ws hw,
      show coreOf ['\x7d'] = ['\x7d'] from by decide]
    refine ⟨⟨by decide, by decide, ?_⟩, by decide⟩
    rintro ⟨p, hp⟩
    have hl := congrArg List.length hp
    simp only [List.length_append, List.length_cons, List.length_nil] at hl
    have hp0 : p = [] := List.length_eq_zero.mp (by omega)
    subst hp0
    simp at hp
  | objMembers ms h ih =>
    rw [coreOf_append, coreOf_cons_nonws '\x7b' _ (by decide),
      show coreOf ['\x7d'] = ['\x7d'] from by decide]
    constructor
    · refine ⟨by simp, ?_, ?_⟩
      · rw [List.getLast?_concat]
        decide
      · rintro ⟨p, hp⟩
        rw [show p ++ [',', '\x7d'] = (p ++ [',']) ++ ['\x7d'] from by simp] at hp
        have hc := List.append_cancel_right hp
        have hlast := congrArg List.getLast? hc
        rw [show ('\x7b' : Char) :: coreOf ms = [] ++ '\x7b' :: coreOf ms from rfl,
          getLast?_cons_append _ _ _ ih.1.1, List.getLast?_concat] at hlast
        exact ih.1.2.1 hlast
    · intro hcon
      have hl := congrArg List.length hcon
      simp only [List.length_append, List.length_cons, List.length_nil] at hl
      omega
  | arrEmpty w hw =>
    rw [coreOf_append, coreOf_cons_nonws '[' _ (by decide), coreOf_ws hw,
      show coreOf [']'] = [']'] from by decide]
    exact ⟨good_of_last_ne (by decide) (by decide) (by decide), by decide⟩
  | arrElems es h ih =>
    rw [coreOf_append, coreOf_cons_nonws '[' _ (by decide),
      show coreOf [']'] = [']'] from by decide]
    constructor
    · apply good_of_last_ne
      · simp
      · rw [List.getLast?_concat]
        decide
      · rw [List.getLast?_concat]
        decide
    · intro hcon
      have hl := congrArg List.length hcon
      simp only [List.length_append, List.length_cons, List.length_nil] at hl
      omega
  | membersSingle m h ih => exact ih
  | membersCons m ms hm hms ihm ihms =>
    rw [coreOf_append, coreOf_cons_nonws ',' _ (by decide)]
    constructor
    · refine ⟨by simp, ?_, ?_⟩
      · rw [getLast?_cons_append _ _ _ ihms.1.1]
        exact ihms.1.2.1
      · intro hbad
        exact bad_tail ihms.1.1 ihms.2 ihms.1.2.2 hbad
    · intro hcon
      have hl := congrArg List.length hcon
      simp only [List.length_append, List.length_cons, List.length_nil] at hl
      have hA := List.length_pos.mpr ihm.1.1
      omega
  | memberMk w1 b w2 e hw1 hw2 he ihe =>
    simp only [coreOf_append]
    rw [coreOf_ws hw1, coreOf_ws hw2, coreOf_cons_nonws ':' _ (by decide),
      coreOf_cons_nonws '\"' _ (by decide),
      show coreOf ['\"'] = ['\"'] from by decide]
    simp only [List.nil_append, List.append_nil]
    constructor
    · refine ⟨by simp, ?_, ?_⟩
      · rw [getLast?_cons_append _ _ _ ihe.1.1]
        exact ihe.1.2.1
      · intro hbad
        exact bad_tail ihe.1.1 ihe.2 ihe.1.2.2 hbad
    · intro hcon
      have hl := congrArg List.length hcon
      simp only [List.length_append, List.length_cons, List.length_nil] at hl
      omega
  | elementMk w1 v w2 hw1 hv hw2 ihv =>
    simp only [coreOf_append]
    rw [coreOf_ws hw1, coreOf_ws hw2]
    simp only [List.nil_append, List.append_nil]
    exact ihv
  | elementsSingle e h ih => exact ih
  | elementsCons e es he hes ihe ihes =>
    rw [coreOf_append, coreOf_cons_nonws ',' _ (by decide)]
    constructor
    · refine ⟨by simp, ?_, ?_⟩
      · rw [getLast?_cons_append _ _ _ ihes.1.1]
        exact ihes.1.2.1
      · intro hbad
        exact bad_tail ihes.1.1 ihes.2 ihes.1.2.2 hbad
    · intro hcon
      have hl := congrArg List.length hcon
      simp only [List.length_append, List.length_cons, List.length_nil] at hl
      have hA := List.length_pos.mpr ihe.1.1
      omega

theorem exists_bad_of_tail (C : List Char) :
    ∃ p : List Char, C ++ ['\x7d', ',', '\x7d'] = p ++ [',', '\x7d'] :=
  ⟨C ++ ['\x7d'], by simp⟩

/-- Claim C9: for every project name and any dependency fragments, the
rendered manifest text ends with a closing brace, a comma, whitespace and
the final closing brace - the trailing comma after the devDependencies
object - and is therefore never a strictly valid JSON text. -/
theorem c9_trailing_comma_invalid_json (n : String) (deps devDeps : List String) :
    ("\x7d,\n    \x7d".data <:+ (packageJsonContent n deps devDeps).data) ∧
    ¬ IsStrictJsonText (packageJsonContent n deps devDeps) := by
  constructor
  · unfold packageJsonContent
    rw [String.data_append,
      show ("\n        \x7d,\n    \x7d" : String).data =
        ("\n        " : String).data ++ ("\x7d,\n    \x7d" : String).data from rfl,
      ← List.append_assoc]
    exact List.suffix_append _ _
  · intro hjson
    have hinv := (jsyn_core_inv hjson).1
    apply hinv.2.2
    unfold packageJsonContent
    rw [String.data_append, coreOf_append,
      show coreOf ("\n        \x7d,\n    \x7d" : String).data = ['\x7d', ',', '\x7d']
        from by decide]
    exact exists_bad_of_tail _

/-- Witness for claim C9 at the demo name with empty dependency lists. -/
theorem c9_trailing_comma_invalid_json_witness :
    ("\x7d,\n    \x7d".data <:+ (packageJsonContent "demo" [] []).data) ∧
    ¬ IsStrictJsonText (packageJsonContent "demo" [] []) :=
  c9_trailing_comma_invalid_json "demo" [] []
